import Mathlib

/-!
Verification development for the rank-agreement scripts of this repository.

The Python scripts are embedded shallowly: document identifiers are `ℕ`,
relevance labels and scores are `ℚ` (the scripts use IEEE floats only as a
carrier for small rationals), dictionaries `docid → score` are modelled as
plain functions together with a `Finset` of keys, and the `float('nan')`
sentinel written by `get_kappa.py` is modelled as `Option.none`.
-/

namespace ApTauCalc

/-- Ordering relation realised by the Python key `lambda d: (-s[d], d)` in
`sorted(docids, key=...)` (src/ap_tau_calc.py, lines 28-29): descending
score, ties broken by ascending identifier. -/
def scoreOrder (s : ℕ → ℚ) (a b : ℕ) : Prop :=
  s b < s a ∨ (s a = s b ∧ a ≤ b)

instance scoreOrder.instDecidableRel (s : ℕ → ℚ) : DecidableRel (scoreOrder s) :=
  fun a b => inferInstanceAs (Decidable (s b < s a ∨ (s a = s b ∧ a ≤ b)))

instance scoreOrder.instIsTotal (s : ℕ → ℚ) : IsTotal ℕ (scoreOrder s) where
  total a b := by
    rcases lt_trichotomy (s a) (s b) with h | h | h
    · exact Or.inr (Or.inl h)
    · rcases Nat.le_total a b with hab | hba
      · exact Or.inl (Or.inr ⟨h, hab⟩)
      · exact Or.inr (Or.inr ⟨h.symm, hba⟩)
    · exact Or.inl (Or.inl h)

instance scoreOrder.instIsTrans (s : ℕ → ℚ) : IsTrans ℕ (scoreOrder s) where
  trans a b c hab hbc := by
    rcases hab with h1 | ⟨e1, l1⟩
    · rcases hbc with h2 | ⟨e2, _⟩
      · exact Or.inl (h2.trans h1)
      · exact Or.inl (e2 ▸ h1)
    · rcases hbc with h2 | ⟨e2, l2⟩
      · exact Or.inl (e1 ▸ h2)
      · exact Or.inr ⟨e1.trans e2, l1.trans l2⟩

instance scoreOrder.instIsAntisymm (s : ℕ → ℚ) : IsAntisymm ℕ (scoreOrder s) where
  antisymm a b hab hba := by
    rcases hab with h1 | ⟨e1, l1⟩
    · rcases hba with h2 | ⟨e2, _⟩
      · exact absurd (h1.trans h2) (lt_irrefl _)
      · exact absurd h1 (not_lt.mpr (le_of_eq e2.symm))
    · rcases hba with h2 | ⟨e2, l2⟩
      · exact absurd h2 (not_lt.mpr (le_of_eq e1.symm))
      · exact Nat.le_antisymm l1 l2

/-- Embeds `sorted(docids, key=lambda d: (-s[d], d))`.  The key order is a
total order that is antisymmetric on distinct identifiers, so every sorted
permutation of `docids` is the same list; insertion sort therefore yields
exactly the list CPython's stable sort yields. -/
def sortDocs (s : ℕ → ℚ) (docids : List ℕ) : List ℕ :=
  List.insertionSort (scoreOrder s) docids

/-- Embeds `tau_ap_from_scores(docids, s_ref, s_cmp)` from
src/ap_tau_calc.py lines 27-44.  All list indices produced by the loops are
in bounds, so `getD _ 0` reads exactly the element Python reads. -/
def tau_ap_from_scores (docids : List ℕ) (s_ref s_cmp : ℕ → ℚ) : ℚ :=
  let order_ref := sortDocs s_ref docids
  let order_cmp := sortDocs s_cmp docids
  let pos_cmp : ℕ → ℕ := fun d => List.indexOf d order_cmp
  let n := order_ref.length
  if n ≤ 1 then 1
  else
    let S : ℚ := (List.range' 1 (n - 1)).foldl
      (fun acc i =>
        let di := order_ref.getD i 0
        let pi := pos_cmp di
        let c := ((List.range i).filter (fun j => pos_cmp (order_ref.getD j 0) > pi)).length
        acc + (c : ℚ) / (i : ℚ)) 0
    1 - (2 / ((n : ℚ) - 1)) * S

/-- Modelled from the spec: the algorithm of §4.1 as written there — sort
both ways with descending score and ascending-identifier tie-break, count
for each reference rank `i ∈ [1, n)` the discordant earlier ranks
`c i = #\x7bj < i : pos_cmp (d j) > pos_cmp (d i)\x7d`, sum `c i / i` over
`Finset.Ico 1 n`, and return `1 - (2/(n-1)) · S`.  Written independently of
the loop structure of the source, to be compared against
`tau_ap_from_scores`. -/
def tau_ap_specAlg (docids : List ℕ) (s_ref s_cmp : ℕ → ℚ) : ℚ :=
  let order_ref := sortDocs s_ref docids
  let order_cmp := sortDocs s_cmp docids
  let pos_cmp : ℕ → ℕ := fun d => List.indexOf d order_cmp
  let n := docids.length
  if n ≤ 1 then 1
  else
    1 - (2 / ((n : ℚ) - 1)) *
      ∑ i ∈ Finset.Ico 1 n,
        (((Finset.range i).filter
            (fun j => pos_cmp (order_ref.getD j 0) > pos_cmp (order_ref.getD i 0))).card : ℚ)
          / (i : ℚ)

/-- Number of discordant earlier reference ranks for reference rank `i`:
the inner `for j in range(i)` loop of src/ap_tau_calc.py lines 38-42. -/
def discordantCount (oref ocmp : List ℕ) (i : ℕ) : ℕ :=
  ((List.range i).filter
    (fun j => List.indexOf (oref.getD j 0) ocmp > List.indexOf (oref.getD i 0) ocmp)).length

/-- Overlap of two judgment sets, src/ap_tau_calc.py line 81:
`sorted(set(s_ref_all.keys()) & set(s_other_all.keys()))`, as the key
intersection; `overlapSorted` is the ascending list Python builds. -/
def overlapKeys (k1 k2 : Finset ℕ) : Finset ℕ := k1 ∩ k2

def overlapSorted (k1 k2 : Finset ℕ) : List ℕ := (k1 ∩ k2).sort (· ≤ ·)

/-- Mean absolute error over the inner join of two judgment sets,
src/relevant_calc.py lines 65-79: the merged rows are exactly the docids
present in both sets (each set maps a docid to one label), and the
statistic is the mean of `|relevance_orig - relevance_other|` over them. -/
def mae (k1 k2 : Finset ℕ) (f g : ℕ → ℚ) : ℚ :=
  (∑ d ∈ k1 ∩ k2, |f d - g d|) / ((k1 ∩ k2).card : ℚ)

/-- Per-file comparison step of src/ap_tau_calc.py lines 80-91: build the
overlap; when fewer than two docids overlap the pair is skipped (no
statistic row is produced, modelled `none`), otherwise AP-τ is computed on
the sorted overlap. -/
def compareStep (k1 k2 : Finset ℕ) (f g : ℕ → ℚ) : Option ℚ :=
  if (overlapKeys k1 k2).card < 2 then none
  else some (tau_ap_from_scores (overlapSorted k1 k2) f g)

/-- Modelled from src/agreement_haiku.py lines 12-27: each label column is
assigned into `merged` by pandas index alignment, i.e. by row position, not
joined on docid.  Row `k` of the first file is compared with row `k` of the
second; a missing row compares unequal (NaN equality is false), and the
mean is over the first file's row count. -/
def agreementHaiku (rows0 rows1 : List (ℕ × ℚ)) : ℚ :=
  let n0 := rows0.length
  let agree := ((List.range n0).filter (fun k =>
    match rows1[k]? with
    | some r => decide ((rows0.getD k (0, 0)).2 = r.2)
    | none => false)).length
  (agree : ℚ) / (n0 : ℚ)

/-- Reference judgment set of the spec's overlap-filtering example,
`{1:3, 2:2, 3:1}`. -/
def exampleRefLabel : ℕ → ℚ := fun d =>
  if d = 1 then 3 else if d = 2 then 2 else if d = 3 then 1 else 0

/-- Comparison judgment set of the spec's overlap-filtering example,
`{1:3, 2:0, 4:5}`. -/
def exampleCmpLabel : ℕ → ℚ := fun d =>
  if d = 1 then 3 else if d = 2 then 0 else if d = 4 then 5 else 0

end ApTauCalc

namespace GetKappa

/-- Whitespace removed by Python `str.strip()` and matched by `\s` in the
regular expressions of the scripts. -/
def isPySpace (c : Char) : Bool :=
  c = ' ' || c = '\t' || c = '\n' || c = '\r' || c = '\x0b' || c = '\x0c'

/-- ASCII lowering, the effect of Python `str.lower()` on the ASCII column
names and filenames these scripts use. -/
def strLower (s : String) : String := String.mk (s.toList.map Char.toLower)

/-- Python `str.strip()`: remove leading and trailing whitespace. -/
def strStrip (s : String) : String :=
  String.mk (((s.toList.dropWhile isPySpace).reverse.dropWhile isPySpace).reverse)

/-- Value of a run of decimal digits (underscores already removed). -/
def digitsVal (cs : List Char) : ℕ :=
  cs.foldl (fun a c => 10 * a + (c.toNat - 48)) 0

/-- Recognises the digit part of a CPython integer literal: nonempty, first
and last characters are digits, every character is a digit or an
underscore, and no two underscores are adjacent. -/
def validDigitRun (cs : List Char) : Bool :=
  !cs.isEmpty &&
    (cs.head?.all Char.isDigit) && (cs.getLast?.all Char.isDigit) &&
    cs.all (fun c => c.isDigit || c = '_') &&
    (cs.zip cs.tail).all (fun p => !(p.1 = '_' && p.2 = '_'))

/-- Embeds Python `int(s.strip())`: strip whitespace, optional single sign,
then a digit run (single underscores between digits allowed); anything else
raises `ValueError`, modelled as `none`. -/
def pyParseInt (str0 : String) : Option ℤ :=
  let cs := (strStrip str0).toList
  match cs with
  | [] => none
  | c :: rest =>
      let signed : ℤ × List Char :=
        if c = '-' then (-1, rest) else if c = '+' then (1, rest) else (1, cs)
      if validDigitRun signed.2 then
        some (signed.1 * (digitsVal (signed.2.filter (fun d => d ≠ '_')) : ℤ))
      else none

/-- Embeds `checkInt` (src/scripts/csv_convert/get_kappa.py lines 19-23):
`int(str(string).strip())` returning `None` on `ValueError`.  A missing CSV
value is Python `None`, whose `str` is `"None"` and never parses. -/
def checkInt (x : Option String) : Option ℤ :=
  match x with
  | none => none
  | some s => pyParseInt s

/-- Case-insensitive column lookup: the dict comprehension
`\x7bc.lower(): c for c in fieldnames\x7d` keeps the last occurrence of each
lowercased name, and `.get` retrieves it. -/
def lookupCol (fieldnames : List String) (key : String) : Option String :=
  fieldnames.reverse.find? (fun c => strLower c == key)

/-- Resolution `cols.get("rel") or cols.get("relevance")` of
src/scripts/csv_convert/get_kappa.py line 48. -/
def relColOf (fieldnames : List String) : Option String :=
  (lookupCol fieldnames "rel").orElse (fun _ => lookupCol fieldnames "relevance")

/-- Resolution of the translated-label column, get_kappa.py line 49. -/
def trColOf (fieldnames : List String) : Option String :=
  ((lookupCol fieldnames "rel_translated").orElse
      (fun _ => lookupCol fieldnames "translated")).orElse
    (fun _ => lookupCol fieldnames "relevance_translated")

/-- Embeds `load_rel_columns` (get_kappa.py lines 25-62): a row is a
`DictReader` dict, modelled as a function from column name to optional cell.
With no header, or with either required column unresolved, the function
returns two empty lists — it raises nothing.  Otherwise each row whose two
cells both parse as ints appends to both lists, and every other row is
skipped. -/
def load_rel_columns (fieldnames : List String)
    (rows : List (String → Option String)) : List ℤ × List ℤ :=
  match fieldnames with
  | [] => ([], [])
  | _ :: _ =>
      match relColOf fieldnames, trColOf fieldnames with
      | some rc, some tc =>
          rows.foldl (fun acc row =>
            match checkInt (row rc), checkInt (row tc) with
            | some r, some rt => (acc.1 ++ [r], acc.2 ++ [rt])
            | _, _ => acc) ([], [])
      | _, _ => ([], [])

/-- Weight matrix of the nominal (unweighted) kappa. -/
def wNominal (a b : ℤ) : ℚ := if a = b then 0 else 1

/-- Weight matrix of the linear-weighted kappa. -/
def wLinear (a b : ℤ) : ℚ := |(a : ℚ) - (b : ℚ)|

/-- Weight matrix of the quadratic-weighted kappa. -/
def wQuadratic (a b : ℤ) : ℚ := ((a : ℚ) - (b : ℚ)) ^ 2

/-- Modelled from the spec (§4.1, kappa family) and scikit-learn's
documented formula for `cohen_kappa_score`, an external collaborator of
get_kappa.py: `κ = 1 - Σ w·confusion / Σ w·expected` with expected counts
the outer product of the marginals over `n`; a zero denominator yields
`float('nan')`, modelled as `none`. -/
def cohen_kappa_score (w : ℤ → ℤ → ℚ) (y1 y2 : List ℤ) : Option ℚ :=
  let pairs := y1.zip y2
  let n := pairs.length
  let labels : Finset ℤ := (pairs.map Prod.fst ++ pairs.map Prod.snd).toFinset
  let conf : ℤ → ℤ → ℕ := fun a b => (pairs.filter (fun p => p.1 = a ∧ p.2 = b)).length
  let num : ℚ := ∑ a ∈ labels, ∑ b ∈ labels, w a b * (conf a b : ℚ)
  let den : ℚ := (∑ a ∈ labels, ∑ b ∈ labels,
    w a b * ((pairs.map Prod.fst).count a : ℚ) * ((pairs.map Prod.snd).count b : ℚ)) / (n : ℚ)
  if den = 0 then none else some (1 - num / den)

/-- Summary row of get_kappa.py `summarize_file`; the three kappa fields
are `Option ℚ`, `none` standing for the `float('nan')` Python writes. -/
structure KappaRow where
  model : String
  n : ℕ
  kappa_nominal : Option ℚ
  kappa_linear : Option ℚ
  kappa_quadratic : Option ℚ
  more : ℕ
  less : ℕ
  unchanged : ℕ
deriving DecidableEq

/-- Embeds `summarize_file` (get_kappa.py lines 65-92) after the filename
regex has matched and the two label columns are loaded: with `n = 0` it
returns a row of NaN kappas and zero counts — it does not skip. -/
def summarize_file (model : String) (y1 y2 : List ℤ) : KappaRow :=
  let n := min y1.length y2.length
  if n = 0 then ⟨model, 0, none, none, none, 0, 0, 0⟩
  else
    ⟨model, n,
      cohen_kappa_score wNominal y1 y2,
      cohen_kappa_score wLinear y1 y2,
      cohen_kappa_score wQuadratic y1 y2,
      ((y1.zip y2).filter (fun p => p.2 > p.1)).length,
      ((y1.zip y2).filter (fun p => p.2 < p.1)).length,
      ((y1.zip y2).filter (fun p => p.2 = p.1)).length⟩

/-- Embeds `MODEL_RE.match(path.name)` of get_kappa.py lines 17 and 70-73:
`^doc_rel_compare_(.+)\.csv$`, case-insensitive, group 1 greedy. -/
def modelOf (name : String) : Option String :=
  let lower := (strLower name).toList
  if lower.take 16 = "doc_rel_compare_".toList ∧
      lower.drop (lower.length - 4) = ".csv".toList ∧ 20 < lower.length then
    some (String.mk ((name.toList.drop 16).take (name.toList.length - 20)))
  else none

/-- One file step of get_kappa.py `main` (lines 96-102): a file whose name
matches the regex always contributes a summary row — `summarize_file`
returns `None` only on a regex mismatch. -/
def summarizeFileStep (name : String) (y1 y2 : List ℤ) : Option KappaRow :=
  (modelOf name).map (fun m => summarize_file m y1 y2)

/-- Embeds the required-column check of
src/scripts/csv_convert/process_baseline/summary.py lines 50-51, which
raises `SystemExit` with a message naming the `relevance` column (quotes of
the original message elided). -/
def summaryRelevanceCheck (columns : List String) : Except String Unit :=
  if "relevance" ∈ columns then Except.ok ()
  else Except.error "Input must have a relevance column."

end GetKappa

namespace ApTauCalc

/-- Modelled from the spec (§6: the `relevance` field "may be
blank/non-numeric for unjudged items and must be treated as missing") and
pandas `to_numeric(errors="coerce")`, the external collaborator called by
`read_labels`: a missing cell (blank, already NaN after `read_csv`) stays
NaN, a stripped signed decimal integer or fraction parses to its value, and
everything else is coerced to NaN, modelled as `none`.  The scientific and
infinity forms pandas also accepts do not occur in these TSV labels. -/
def toNumericCell (cell : Option String) : Option ℚ :=
  match cell with
  | none => none
  | some s =>
      match (GetKappa.strStrip s).toList with
      | [] => none
      | c :: rest =>
          let sgn : ℚ := if c = '-' then -1 else 1
          let body := if c = '-' ∨ c = '+' then rest else c :: rest
          let ip := body.takeWhile (fun x => x ≠ '.')
          match body.dropWhile (fun x => x ≠ '.') with
          | [] =>
              if ip ≠ [] ∧ ip.all Char.isDigit then
                some (sgn * (GetKappa.digitsVal ip : ℚ))
              else none
          | _ :: fp =>
              if (ip ≠ [] ∨ fp ≠ []) ∧ ip.all Char.isDigit ∧ fp.all Char.isDigit then
                some (sgn * ((GetKappa.digitsVal ip : ℚ) +
                  (GetKappa.digitsVal fp : ℚ) / (10 ^ fp.length : ℚ)))
              else none

/-- Embeds `read_labels` (src/ap_tau_calc.py lines 46-51) together with the
caller's `.dropna(subset=["relevance"])` (lines 70 and 77): the relevance
column is coerced with `to_numeric(errors="coerce")` — `toNumericCell` —
and every row whose coerced label is NaN is dropped; the surviving
`(docid, label)` rows are what `dict(zip(...))` receives. -/
def read_labels_dropna (rows : List (ℕ × Option String)) : List (ℕ × ℚ) :=
  (rows.map (fun r => (r.1, toNumericCell r.2))).filterMap
    (fun r => r.2.map (fun v => (r.1, v)))

/-- Key set of the dict `dict(zip(df["docid"], df["relevance"]))` built
from a loaded row list (src/ap_tau_calc.py lines 71 and 78). -/
def keysOf (l : List (ℕ × ℚ)) : Finset ℕ := (l.map Prod.fst).toFinset

/-- Modelled from src/agreement_haiku.py lines 12-27 like
`agreementHaiku`, but with the relevance cells as pandas delivers them:
`none` is NaN (a blank or unjudged label).  `labels1 == labels2` is False
whenever either side is NaN, yet the row still counts in the denominator of
`.mean()`, so a missing-label row enters the statistic as a disagreement
instead of being excluded. -/
def agreementHaikuRows (rows0 rows1 : List (ℕ × Option ℚ)) : ℚ :=
  let n0 := rows0.length
  let agree := ((List.range n0).filter (fun k =>
    match (rows0.getD k (0, none)).2, rows1[k]? with
    | some a, some r =>
        match r.2 with
        | some b => decide (a = b)
        | none => false
    | _, _ => false)).length
  (agree : ℚ) / (n0 : ℚ)

end ApTauCalc

namespace Umbrela

/-- Python values `json.loads` can produce, as far as
trec_dl_label_umbrela.py inspects them: the script only distinguishes
dicts (via `isinstance(obj, dict)`) from everything else. -/
inductive PyJson where
  | null : PyJson
  | bool : Bool → PyJson
  | int : ℤ → PyJson
  | float : ℚ → PyJson
  | str : String → PyJson
  | arr : List PyJson → PyJson
  | obj : List (String × PyJson) → PyJson

/-- Python `dict.get` on a dict built from a JSON object (duplicate keys:
last occurrence wins). -/
def objGet (kvs : List (String × PyJson)) (k : String) : Option PyJson :=
  (kvs.reverse.find? (fun p => p.1 == k)).map Prod.snd

/-- Character class `[0-3]` of the two score regexes. -/
def isDigit03 (c : Char) : Bool := c = '0' || c = '1' || c = '2' || c = '3'

/-- Word boundary `\b` immediately after a digit: the next character, if
any, is not a word character. -/
def wordBoundaryAfter (l : List Char) : Bool :=
  match l with
  | [] => true
  | d :: _ => !(d.isAlphanum || d = '_')

/-- Regex fragment `\s*`. -/
def dropSpaces (l : List Char) : List Char := l.dropWhile GetKappa.isPySpace

/-- Case-insensitive literal match (the regexes are compiled with
`re.IGNORECASE`): consumes `pat` from the front of `l`. -/
def matchCI : List Char → List Char → Option (List Char)
  | [], l => some l
  | _ :: _, [] => none
  | p :: ps, c :: cs => if c.toLower = p.toLower then matchCI ps cs else none

/-- Regex fragment `([0-3])\b`: the head must be a digit 0-3 followed by a
word boundary; the captured digit is returned. -/
def digitWithBoundary (l : List Char) : Option Char :=
  match l with
  | [] => none
  | c :: rest => if isDigit03 c && wordBoundaryAfter rest then some c else none

/-- Match of `_FINAL_SCORE_RE = ##\s*final\s*score\s*:\s*([0-3])\b`
(trec_dl_label_umbrela.py line 97) anchored at the current position. -/
def finalScoreAt (l : List Char) : Option Char :=
  match matchCI "##".toList l with
  | none => none
  | some l1 =>
      match matchCI "final".toList (dropSpaces l1) with
      | none => none
      | some l2 =>
          match matchCI "score".toList (dropSpaces l2) with
          | none => none
          | some l3 =>
              match matchCI ":".toList (dropSpaces l3) with
              | none => none
              | some l4 => digitWithBoundary (dropSpaces l4)

/-- Match of `_O_FIELD_RE = "?O"?\s*[:=]\s*([0-3])\b`
(trec_dl_label_umbrela.py line 98) anchored at the current position.  The
optional quotes are consumed greedily; backtracking cannot change the
outcome because an unconsumed quote can satisfy neither `O` nor `[:=]`. -/
def dropOptQuote (l : List Char) : List Char :=
  match l with
  | '"' :: rest => rest
  | _ => l

def oFieldAt (l : List Char) : Option Char :=
  match
    (match l with
      | '"' :: 'O' :: rest => some rest
      | 'O' :: rest => some rest
      | _ => none) with
  | none => none
  | some l1 =>
      match
        (match dropSpaces (dropOptQuote l1) with
          | ':' :: rest => some rest
          | '=' :: rest => some rest
          | _ => none) with
      | none => none
      | some l3 => digitWithBoundary (dropSpaces l3)

/-- Leftmost match of `re.search`: try the pattern at every position. -/
def searchFirst (f : List Char → Option Char) : List Char → Option Char
  | [] => f []
  | c :: cs =>
      match f (c :: cs) with
      | some r => some r
      | none => searchFirst f cs

/-- Match of `_JSON_OBJ_RE = \\\x7b.*\\\x7d` with `re.DOTALL`
(trec_dl_label_umbrela.py line 96): from the first opening brace to the
last closing brace, if the latter comes later. -/
def jsonObjSubstring (text : String) : Option String :=
  let cs := text.toList
  match cs.findIdx? (fun c => c = '{'), cs.reverse.findIdx? (fun c => c = '}') with
  | some i, some jr =>
      let j := cs.length - 1 - jr
      if i < j then some (String.mk ((cs.drop i).take (j - i + 1))) else none
  | _, _ => none

/-- Shared body of branches 1 and 2 of `extract_o_score_from_text`: parse,
require a dict, read field `O`, stringify, strip, and accept only a result
in `{"0","1","2","3"}`.  `jloads` and `pyStr` model the standard-library
collaborators `json.loads` (with exceptions as `none`) and `str`. -/
def tryJsonO (jloads : String → Option PyJson) (pyStr : PyJson → String)
    (t : String) : Option String :=
  match jloads t with
  | some (PyJson.obj kvs) =>
      match objGet kvs "O" with
      | some v =>
          if GetKappa.strStrip (pyStr v) = "0" ∨ GetKappa.strStrip (pyStr v) = "1" ∨
              GetKappa.strStrip (pyStr v) = "2" ∨ GetKappa.strStrip (pyStr v) = "3" then
            some (GetKappa.strStrip (pyStr v))
          else none
      | none => none
  | _ => none

/-- Embeds `extract_o_score_from_text`
(src/scripts/trec_dl_llm_label/background/trec_dl_label_umbrela.py lines
100-149): empty input returns `""`; then, in order, whole-text JSON, first
JSON-object substring, the `##final score:` regex, the loose `O` field
regex; `""` when nothing matches. -/
def extract_o_score_from_text (jloads : String → Option PyJson)
    (pyStr : PyJson → String) (text : String) : String :=
  if text = "" then ""
  else
    match tryJsonO jloads pyStr text with
    | some s => s
    | none =>
        match (jsonObjSubstring text).bind (fun sub => tryJsonO jloads pyStr sub) with
        | some s => s
        | none =>
            match searchFirst finalScoreAt text.toList with
            | some c => String.mk [c]
            | none =>
                match searchFirst oFieldAt text.toList with
                | some c => String.mk [c]
                | none => ""

end Umbrela

namespace ApTauCalc

lemma foldl_add_eq_sum (l : List ℕ) (f : ℕ → ℚ) (a : ℚ) :
    l.foldl (fun acc i => acc + f i) a = a + (l.map f).sum := by
  induction l generalizing a with
  | nil => simp
  | cons x xs ih => simp [ih, add_assoc]

lemma sum_map_range' (f : ℕ → ℚ) (a k : ℕ) :
    ((List.range' a k).map f).sum = ∑ i ∈ Finset.Ico a (a + k), f i := by
  induction k generalizing a with
  | zero => simp
  | succ k ih =>
      rw [List.range'_succ, List.map_cons, List.sum_cons, ih,
        Finset.sum_eq_sum_Ico_succ_bot (by omega : a < a + (k + 1))]
      have h : a + (k + 1) = (a + 1) + k := by omega
      rw [h]

lemma range_filter_card (i : ℕ) (p : ℕ → Prop) [DecidablePred p] :
    ((Finset.range i).filter p).card = ((List.range i).filter (fun j => decide (p j))).length :=
  rfl

/-- C1: for every docid list with at least two elements and all score
functions, `tau_ap_from_scores` computes exactly the algorithm of the spec:
sort both ways descending with ascending-id tie-break, accumulate
`S = Σ c i / i` over reference ranks `1 ≤ i < n` where `c i` counts earlier
reference ranks placed later by the comparison, and return
`1 - (2/(n-1)) * S`. -/
theorem tau_ap_from_scores_eq_specAlg (docids : List ℕ) (s_ref s_cmp : ℕ → ℚ)
    (h : 2 ≤ docids.length) :
    tau_ap_from_scores docids s_ref s_cmp = tau_ap_specAlg docids s_ref s_cmp := by
  have hn1 : ¬ docids.length ≤ 1 := by omega
  simp only [tau_ap_from_scores, tau_ap_specAlg, sortDocs, List.length_insertionSort]
  rw [if_neg hn1, if_neg hn1, foldl_add_eq_sum, zero_add, sum_map_range']
  have h1 : 1 + (docids.length - 1) = docids.length := by omega
  rw [h1]
  congr 1

theorem tau_ap_from_scores_eq_specAlg_witness :
    2 ≤ ([0, 1] : List ℕ).length ∧
      tau_ap_from_scores [0, 1] (fun _ => 0) (fun _ => 0) =
        tau_ap_specAlg [0, 1] (fun _ => 0) (fun _ => 0) :=
  ⟨by decide, tau_ap_from_scores_eq_specAlg [0, 1] _ _ (by decide)⟩

lemma tau_eq_one_of_short (docids : List ℕ) (s_ref s_cmp : ℕ → ℚ)
    (h : docids.length ≤ 1) : tau_ap_from_scores docids s_ref s_cmp = 1 := by
  simp only [tau_ap_from_scores, sortDocs, List.length_insertionSort]
  rw [if_pos h]

lemma tau_ap_eq_sum (docids : List ℕ) (s_ref s_cmp : ℕ → ℚ)
    (h : ¬ docids.length ≤ 1) :
    tau_ap_from_scores docids s_ref s_cmp =
      1 - (2 / ((docids.length : ℚ) - 1)) *
        ∑ i ∈ Finset.Ico 1 docids.length,
          (discordantCount (sortDocs s_ref docids) (sortDocs s_cmp docids) i : ℚ) / i := by
  simp only [tau_ap_from_scores, discordantCount, sortDocs, List.length_insertionSort]
  rw [if_neg h, foldl_add_eq_sum, zero_add, sum_map_range']
  have h1 : 1 + (docids.length - 1) = docids.length := by omega
  rw [h1]

lemma discordantCount_le (oref ocmp : List ℕ) (i : ℕ) :
    discordantCount oref ocmp i ≤ i := by
  have := List.length_filter_le
    (fun j => decide (List.indexOf (oref.getD j 0) ocmp > List.indexOf (oref.getD i 0) ocmp))
    (List.range i)
  simpa [discordantCount] using this

/-- C2: the value returned by `tau_ap_from_scores` always lies in `[-1, 1]`,
for every docid list and every pair of score functions, ties included:
the deterministic ascending-id tie-break keeps every per-rank discordance
count `c i` between `0` and `i`, so the sum `S` stays in `[0, n-1]`. -/
theorem tau_ap_bounded (docids : List ℕ) (s_ref s_cmp : ℕ → ℚ) :
    -1 ≤ tau_ap_from_scores docids s_ref s_cmp ∧
      tau_ap_from_scores docids s_ref s_cmp ≤ 1 := by
  by_cases h : docids.length ≤ 1
  · rw [tau_eq_one_of_short docids s_ref s_cmp h]
    norm_num
  · rw [tau_ap_eq_sum docids s_ref s_cmp h]
    have hn : 2 ≤ docids.length := by omega
    have hnq : (2 : ℚ) ≤ (docids.length : ℚ) := by exact_mod_cast hn
    have hd : (0 : ℚ) < (docids.length : ℚ) - 1 := by linarith
    set S := ∑ i ∈ Finset.Ico 1 docids.length,
      (discordantCount (sortDocs s_ref docids) (sortDocs s_cmp docids) i : ℚ) / i with hS
    have hS0 : 0 ≤ S := by
      refine Finset.sum_nonneg (fun i _ => ?_)
      positivity
    have hS1 : S ≤ ((docids.length - 1 : ℕ) : ℚ) := by
      have hcard : (Finset.Ico 1 docids.length).card = docids.length - 1 := by
        simp [Nat.card_Ico]
      calc S ≤ (Finset.Ico 1 docids.length).card • (1 : ℚ) := by
                refine Finset.sum_le_card_nsmul _ _ _ (fun i hi => ?_)
                have hi1 : 1 ≤ i := (Finset.mem_Ico.mp hi).1
                have hipos : (0 : ℚ) < (i : ℚ) := by exact_mod_cast hi1
                rw [div_le_one hipos]
                exact_mod_cast discordantCount_le _ _ i
        _ = ((docids.length - 1 : ℕ) : ℚ) := by rw [hcard]; simp
    have hSle : S ≤ (docids.length : ℚ) - 1 := by
      have : ((docids.length - 1 : ℕ) : ℚ) = (docids.length : ℚ) - 1 := by
        have h1 : 1 ≤ docids.length := by omega
        push_cast [h1]
        ring
      linarith [hS1, this.ge]
    have hfrac0 : (0 : ℚ) ≤ 2 / ((docids.length : ℚ) - 1) := by positivity
    constructor
    · have hmul : (2 / ((docids.length : ℚ) - 1)) * S ≤
          (2 / ((docids.length : ℚ) - 1)) * ((docids.length : ℚ) - 1) :=
        mul_le_mul_of_nonneg_left hSle hfrac0
      have heq : (2 / ((docids.length : ℚ) - 1)) * ((docids.length : ℚ) - 1) = 2 := by
        field_simp
      linarith
    · have : 0 ≤ (2 / ((docids.length : ℚ) - 1)) * S := mul_nonneg hfrac0 hS0
      linarith

/-- C9: on a docid list with at most one element (empty or singleton),
`tau_ap_from_scores` returns exactly `1.0`, whatever the score functions. -/
theorem tau_ap_degenerate (docids : List ℕ) (s_ref s_cmp : ℕ → ℚ)
    (h : docids.length ≤ 1) : tau_ap_from_scores docids s_ref s_cmp = 1 :=
  tau_eq_one_of_short docids s_ref s_cmp h

theorem tau_ap_degenerate_witness :
    ([] : List ℕ).length ≤ 1 ∧ tau_ap_from_scores [] (fun _ => 0) (fun _ => 0) = 1 :=
  ⟨by decide, tau_ap_degenerate [] _ _ (by decide)⟩

lemma sortDocs_nodup (s : ℕ → ℚ) (docids : List ℕ) (h : docids.Nodup) :
    (sortDocs s docids).Nodup :=
  (List.perm_insertionSort (scoreOrder s) docids).nodup_iff.mpr h

lemma tau_self_eq_one (docids : List ℕ) (s : ℕ → ℚ) (hnd : docids.Nodup) :
    tau_ap_from_scores docids s s = 1 := by
  by_cases h : docids.length ≤ 1
  · exact tau_eq_one_of_short _ _ _ h
  · rw [tau_ap_eq_sum _ _ _ h]
    have hnodup : (sortDocs s docids).Nodup := sortDocs_nodup s docids hnd
    have hlen : (sortDocs s docids).length = docids.length :=
      List.length_insertionSort _ _
    have hzero : ∀ i ∈ Finset.Ico 1 docids.length,
        (discordantCount (sortDocs s docids) (sortDocs s docids) i : ℚ) / i = 0 := by
      intro i hi
      rcases Finset.mem_Ico.mp hi with ⟨_, hi2⟩
      have hcount : discordantCount (sortDocs s docids) (sortDocs s docids) i = 0 := by
        simp only [discordantCount, List.length_eq_zero, List.filter_eq_nil_iff]
        intro j hj
        have hj1 : j < i := List.mem_range.mp hj
        have hjlen : j < (sortDocs s docids).length := by omega
        have hilen : i < (sortDocs s docids).length := by omega
        rw [List.getD_eq_getElem _ _ hjlen, List.getD_eq_getElem _ _ hilen,
          List.indexOf_getElem hnodup j hjlen, List.indexOf_getElem hnodup i hilen]
        simp
        omega
      rw [hcount]
      simp
    rw [Finset.sum_eq_zero hzero, mul_zero, sub_zero]

/-- C3: with the comparison score function equal to the reference score
function, `tau_ap_from_scores` returns exactly `1.0` on every duplicate-free
docid list with at least two elements. -/
theorem tau_ap_identity (docids : List ℕ) (s : ℕ → ℚ) (hnd : docids.Nodup)
    (_h2 : 2 ≤ docids.length) : tau_ap_from_scores docids s s = 1 :=
  tau_self_eq_one docids s hnd

theorem tau_ap_identity_witness :
    ([0, 1] : List ℕ).Nodup ∧ 2 ≤ ([0, 1] : List ℕ).length ∧
      tau_ap_from_scores [0, 1] (fun _ => 0) (fun _ => 0) = 1 :=
  ⟨by decide, by decide, tau_ap_identity [0, 1] (fun _ => 0) (by decide) (by decide)⟩

lemma tau_reverse_eq_neg_one (docids : List ℕ) (s_ref s_cmp : ℕ → ℚ)
    (hnd : docids.Nodup) (h2 : 2 ≤ docids.length)
    (hrev : sortDocs s_cmp docids = (sortDocs s_ref docids).reverse) :
    tau_ap_from_scores docids s_ref s_cmp = -1 := by
  have h : ¬ docids.length ≤ 1 := by omega
  rw [tau_ap_eq_sum _ _ _ h]
  have hlen : (sortDocs s_ref docids).length = docids.length :=
    List.length_insertionSort _ _
  have hnodup : (sortDocs s_ref docids).Nodup := sortDocs_nodup s_ref docids hnd
  have hrevnodup : (sortDocs s_ref docids).reverse.Nodup := by
    simpa using hnodup
  have hpos : ∀ k, k < docids.length →
      List.indexOf ((sortDocs s_ref docids).getD k 0) (sortDocs s_cmp docids) =
        docids.length - 1 - k := by
    intro k hk
    have hkL : k < (sortDocs s_ref docids).length := by omega
    have hidx : docids.length - 1 - k < (sortDocs s_ref docids).reverse.length := by
      simp only [List.length_reverse]
      omega
    have hget : (sortDocs s_ref docids).reverse[docids.length - 1 - k] =
        (sortDocs s_ref docids).getD k 0 := by
      rw [List.getElem_reverse]
      have hix : (sortDocs s_ref docids).length - 1 - (docids.length - 1 - k) = k := by
        omega
      rw [List.getD_eq_getElem _ _ hkL]
      congr 1
    rw [hrev, ← hget, List.indexOf_getElem hrevnodup _ hidx]
  have hone : ∀ i ∈ Finset.Ico 1 docids.length,
      (discordantCount (sortDocs s_ref docids) (sortDocs s_cmp docids) i : ℚ) / i = 1 := by
    intro i hi
    rcases Finset.mem_Ico.mp hi with ⟨hi1, hi2⟩
    have hcount : discordantCount (sortDocs s_ref docids) (sortDocs s_cmp docids) i = i := by
      simp only [discordantCount]
      rw [List.filter_eq_self.mpr ?_, List.length_range]
      intro j hj
      have hj1 : j < i := List.mem_range.mp hj
      rw [decide_eq_true_eq, hpos j (by omega), hpos i hi2]
      omega
    rw [hcount]
    have : (i : ℚ) ≠ 0 := by positivity
    exact div_self this
  rw [Finset.sum_congr rfl hone, Finset.sum_const, Nat.card_Ico, nsmul_eq_mul, mul_one]
  have hd : (docids.length : ℚ) - 1 ≠ 0 := by
    have : (2 : ℚ) ≤ (docids.length : ℚ) := by exact_mod_cast h2
    linarith
  have hcast : ((docids.length - 1 : ℕ) : ℚ) = (docids.length : ℚ) - 1 := by
    have h1 : 1 ≤ docids.length := by omega
    push_cast [h1]
    ring
  rw [hcast]
  field_simp
  norm_num

/-- C8: on a duplicate-free docid list with at least two elements, when the
comparison ordering is the exact reverse of the reference ordering,
`tau_ap_from_scores` is strictly below the identity comparison, and it
equals exactly `-1.0` (in particular when `n = 2`). -/
theorem tau_ap_reversal (docids : List ℕ) (s_ref s_cmp : ℕ → ℚ)
    (hnd : docids.Nodup) (h2 : 2 ≤ docids.length)
    (hrev : sortDocs s_cmp docids = (sortDocs s_ref docids).reverse) :
    tau_ap_from_scores docids s_ref s_cmp < tau_ap_from_scores docids s_ref s_ref ∧
      (docids.length = 2 → tau_ap_from_scores docids s_ref s_cmp = -1) := by
  have hr := tau_reverse_eq_neg_one docids s_ref s_cmp hnd h2 hrev
  have hs := tau_self_eq_one docids s_ref hnd
  refine ⟨?_, fun _ => hr⟩
  rw [hr, hs]
  norm_num

lemma orderedInsert_congr (s s1 : ℕ → ℚ) (a : ℕ) (l : List ℕ)
    (ha : s a = s1 a) (h : ∀ d ∈ l, s d = s1 d) :
    List.orderedInsert (scoreOrder s) a l = List.orderedInsert (scoreOrder s1) a l := by
  induction l with
  | nil => rfl
  | cons b t ih =>
      have hb : s b = s1 b := h b (by simp)
      have ht : ∀ d ∈ t, s d = s1 d := fun d hd => h d (by simp [hd])
      have hiff : scoreOrder s a b ↔ scoreOrder s1 a b := by
        unfold scoreOrder
        rw [ha, hb]
      simp only [List.orderedInsert]
      by_cases hc : scoreOrder s a b
      · rw [if_pos hc, if_pos (hiff.mp hc)]
      · rw [if_neg hc, if_neg (fun hx => hc (hiff.mpr hx)), ih ht]

lemma sortDocs_congr (s s1 : ℕ → ℚ) (l : List ℕ) (h : ∀ d ∈ l, s d = s1 d) :
    sortDocs s l = sortDocs s1 l := by
  induction l with
  | nil => rfl
  | cons a t ih =>
      have ha : s a = s1 a := h a (by simp)
      have ht : ∀ d ∈ t, s d = s1 d := fun d hd => h d (by simp [hd])
      simp only [sortDocs, List.insertionSort] at ih ⊢
      rw [ih ht]
      refine orderedInsert_congr s s1 a _ ha (fun d hd => ?_)
      have : d ∈ t := by
        have := (List.perm_insertionSort (scoreOrder s1) t).mem_iff.mp hd
        exact this
      exact h d (by simp [this])

lemma tau_ap_congr (docids : List ℕ) (f g f1 g1 : ℕ → ℚ)
    (hf : ∀ d ∈ docids, f d = f1 d) (hg : ∀ d ∈ docids, g d = g1 d) :
    tau_ap_from_scores docids f g = tau_ap_from_scores docids f1 g1 := by
  simp only [tau_ap_from_scores]
  rw [sortDocs_congr f f1 docids hf, sortDocs_congr g g1 docids hg]

/-- C4 counterexample: agreement_haiku.py pairs labels by row position, not
by docid.  With reference rows `[(0, 1)]` and comparison rows `[(1, 1)]`
the docid overlap is empty, yet the agreement proportion is `1`; changing
the label of docid `1` — a docid present in only one set — changes the
statistic to `0`.  So a docid appearing in only one set does influence a
computed statistic. -/
theorem agreement_haiku_not_overlap_only :
    overlapKeys {0} {1} = ∅ ∧
      agreementHaiku [(0, 1)] [(1, 1)] = 1 ∧
      agreementHaiku [(0, 1)] [(1, 2)] = 0 := by
  refine ⟨by decide, ?_, ?_⟩
  · show ((1 : ℕ) : ℚ) / ((1 : ℕ) : ℚ) = 1
    norm_num
  · show ((0 : ℕ) : ℚ) / ((1 : ℕ) : ℚ) = 0
    norm_num

/-- C4 amended: in relevant_calc.py and ap_tau_calc.py the statistics are
computed only over the overlap — membership in the overlap is exactly
presence in both key sets, MAE and AP-τ are unchanged by any relabelling
outside the overlap, and on the spec's example the overlap is `{1, 2}` with
MAE `1.0` and items `3`, `4` excluded; agreement_haiku.py, which aligns
rows by position instead of docid, is the exception. -/
theorem overlap_only_statistics :
    (∀ (k1 k2 : Finset ℕ) (d : ℕ), d ∈ overlapKeys k1 k2 ↔ d ∈ k1 ∧ d ∈ k2) ∧
    (∀ (k1 k2 : Finset ℕ) (f g f1 g1 : ℕ → ℚ),
      (∀ d ∈ overlapKeys k1 k2, f d = f1 d) → (∀ d ∈ overlapKeys k1 k2, g d = g1 d) →
        mae k1 k2 f g = mae k1 k2 f1 g1) ∧
    (∀ (k1 k2 : Finset ℕ) (f g f1 g1 : ℕ → ℚ),
      (∀ d ∈ overlapKeys k1 k2, f d = f1 d) → (∀ d ∈ overlapKeys k1 k2, g d = g1 d) →
        tau_ap_from_scores (overlapSorted k1 k2) f g
          = tau_ap_from_scores (overlapSorted k1 k2) f1 g1) ∧
    (overlapKeys {1, 2, 3} {1, 2, 4} = {1, 2} ∧
      mae {1, 2, 3} {1, 2, 4} exampleRefLabel exampleCmpLabel = 1 ∧
      (3 : ℕ) ∉ overlapKeys {1, 2, 3} {1, 2, 4} ∧
      (4 : ℕ) ∉ overlapKeys {1, 2, 3} {1, 2, 4}) := by
  refine ⟨fun k1 k2 d => Finset.mem_inter, ?_, ?_, ?_, ?_, ?_, ?_⟩
  · intro k1 k2 f g f1 g1 hf hg
    unfold mae
    congr 1
    exact Finset.sum_congr rfl (fun d hd => by rw [hf d hd, hg d hd])
  · intro k1 k2 f g f1 g1 hf hg
    refine tau_ap_congr _ _ _ _ _ (fun d hd => ?_) (fun d hd => ?_)
    · exact hf d ((Finset.mem_sort _).mp hd)
    · exact hg d ((Finset.mem_sort _).mp hd)
  · decide
  · have hinter : ({1, 2, 3} : Finset ℕ) ∩ {1, 2, 4} = {1, 2} := by decide
    unfold mae
    rw [hinter, Finset.sum_pair (by norm_num)]
    have hcard : ({1, 2} : Finset ℕ).card = 2 := by decide
    rw [hcard]
    norm_num [exampleRefLabel, exampleCmpLabel]
  · decide
  · decide

theorem overlap_only_statistics_witness :
    mae {1, 2} {1, 2} (fun _ => 1) (fun _ => 1)
      = mae {1, 2} {1, 2} (fun d => if d ≤ 2 then 1 else 5)
          (fun d => if d ≤ 2 then 1 else 7) :=
  overlap_only_statistics.2.1 {1, 2} {1, 2} _ _ _ _ (by decide) (by decide)

theorem tau_ap_reversal_witness :
    tau_ap_from_scores [0, 1] (fun d => if d = 0 then 1 else 0)
        (fun d => if d = 0 then 0 else 1) <
      tau_ap_from_scores [0, 1] (fun d => if d = 0 then 1 else 0)
        (fun d => if d = 0 then 1 else 0) ∧
      (([0, 1] : List ℕ).length = 2 →
        tau_ap_from_scores [0, 1] (fun d => if d = 0 then 1 else 0)
          (fun d => if d = 0 then 0 else 1) = -1) :=
  tau_ap_reversal [0, 1] (fun d => if d = 0 then 1 else 0)
    (fun d => if d = 0 then 0 else 1) (by decide) (by decide) (by decide)

lemma mem_read_labels_dropna (rows : List (ℕ × Option String)) (d : ℕ) (v : ℚ) :
    (d, v) ∈ read_labels_dropna rows ↔
      ∃ c, (d, c) ∈ rows ∧ toNumericCell c = some v := by
  simp only [read_labels_dropna, List.mem_filterMap, List.mem_map, Option.map_eq_some']
  constructor
  · rintro ⟨a, ⟨⟨d0, c0⟩, hr, rfl⟩, w, hw, hpair⟩
    injection hpair with h1 h2
    subst h1
    subst h2
    exact ⟨c0, hr, hw⟩
  · rintro ⟨c, hc, htc⟩
    exact ⟨(d, toNumericCell c), ⟨(d, c), hc, rfl⟩, v, htc, rfl⟩

lemma mem_keysOf (l : List (ℕ × ℚ)) (d : ℕ) : d ∈ keysOf l ↔ ∃ v, (d, v) ∈ l := by
  simp only [keysOf, List.mem_toFinset, List.mem_map]
  constructor
  · rintro ⟨⟨d0, v⟩, h, rfl⟩
    exact ⟨v, h⟩
  · rintro ⟨v, h⟩
    exact ⟨(d, v), h, rfl⟩

/-- C7 counterexample: agreement_haiku.py does not exclude rows with a
missing label before computing its statistic.  With reference rows
`[(0,1),(1,2)]` and comparison rows `[(0,1),(1,NaN)]`, the NaN row is kept
and counted as a disagreement — the agreement proportion is `1/2` — while
excluding the row (second conjunct) gives `1`.  So a row whose label is
missing in one set does take part in a computed statistic. -/
theorem agreement_haiku_includes_missing_labels :
    agreementHaikuRows [(0, some 1), (1, some 2)] [(0, some 1), (1, none)] = 1 / 2 ∧
      agreementHaikuRows [(0, some 1)] [(0, some 1)] = 1 := by
  constructor
  · show ((1 : ℕ) : ℚ) / ((2 : ℕ) : ℚ) = 1 / 2
    norm_num
  · show ((1 : ℕ) : ℚ) / ((1 : ℕ) : ℚ) = 1
    norm_num

end ApTauCalc

namespace GetKappa

/-- C5 counterexample: for a file whose name matches the regex but whose
columns yield zero valid row pairs (`n = 0`, below the minimum any
statistic requires), get_kappa.py does not skip the comparison: `main`
appends, and writes to the summary CSV, a row whose three kappa statistics
are `float('nan')` (modelled `none`).  This contradicts the claim that such
a pair is reported as skipped and that no NaN is emitted as a statistic's
result. -/
theorem get_kappa_emits_nan_row :
    summarizeFileStep "doc_rel_compare_m.csv" [] [] =
      some ⟨"m", 0, none, none, none, 0, 0, 0⟩ := rfl

/-- C5 amended: the AP-τ comparison of ap_tau_calc.py does skip pairs whose
overlap has fewer than two docids, emitting no statistic; get_kappa.py,
however, does not skip a matching file with an empty pair of label columns
— it emits a summary row with `n = 0` and NaN (`none`) kappa values. -/
theorem insufficient_overlap_handling :
    (∀ (k1 k2 : Finset ℕ) (f g : ℕ → ℚ), (ApTauCalc.overlapKeys k1 k2).card < 2 →
        ApTauCalc.compareStep k1 k2 f g = none) ∧
      (∀ (name m : String) (y1 y2 : List ℤ), modelOf name = some m →
        min y1.length y2.length = 0 →
          summarizeFileStep name y1 y2 = some ⟨m, 0, none, none, none, 0, 0, 0⟩) := by
  constructor
  · intro k1 k2 f g h
    simp [ApTauCalc.compareStep, h]
  · intro name m y1 y2 hm h0
    simp [summarizeFileStep, hm, summarize_file, h0]

theorem insufficient_overlap_handling_witness :
    ApTauCalc.compareStep {0} {1} (fun _ => 0) (fun _ => 0) = none :=
  insufficient_overlap_handling.1 {0} {1} (fun _ => 0) (fun _ => 0) (by decide)

/-- C6 counterexample: a CSV whose header lacks every accepted alias of the
two required label columns does not make get_kappa.py fail: on the header
`docid, score` its `load_rel_columns` silently returns two empty lists
(nothing raises; the lines are commented `Return empty lists if required
columns are missing`), and processing continues.  This contradicts the
claim that the load fails fast with a descriptive error for every input
file. -/
theorem load_rel_columns_silent_on_missing :
    load_rel_columns ["docid", "score"] [fun _ => some "3"] = ([], []) := rfl

/-- C6 amended: summary.py does fail fast with a descriptive `SystemExit`
naming the missing `relevance` column, but get_kappa.py's
`load_rel_columns` silently returns empty lists — no error, no column name
— whenever either required column is unresolved. -/
theorem missing_column_handling :
    (∀ columns : List String, "relevance" ∉ columns →
        summaryRelevanceCheck columns = Except.error "Input must have a relevance column.") ∧
      (∀ (fieldnames : List String) (rows : List (String → Option String)),
        relColOf fieldnames = none ∨ trColOf fieldnames = none →
          load_rel_columns fieldnames rows = ([], [])) := by
  constructor
  · intro columns h
    simp [summaryRelevanceCheck, h]
  · intro fieldnames rows h
    cases fieldnames with
    | nil => rfl
    | cons a t =>
        rcases h with h | h
        · simp [load_rel_columns, h]
        · cases hrc : relColOf (a :: t) <;> simp [load_rel_columns, h, hrc]

theorem missing_column_handling_witness :
    summaryRelevanceCheck ["docid", "score"] =
      Except.error "Input must have a relevance column." :=
  missing_column_handling.1 ["docid", "score"] (by decide)

lemma load_fold_eq_filterMap (rc tc : String) (rows : List (String → Option String))
    (a1 a2 : List ℤ) :
    rows.foldl (fun acc row =>
        match checkInt (row rc), checkInt (row tc) with
        | some r, some rt => (acc.1 ++ [r], acc.2 ++ [rt])
        | _, _ => acc) (a1, a2) =
      (a1 ++ (rows.filterMap (fun row =>
          match checkInt (row rc), checkInt (row tc) with
          | some r, some rt => some (r, rt)
          | _, _ => none)).unzip.1,
        a2 ++ (rows.filterMap (fun row =>
          match checkInt (row rc), checkInt (row tc) with
          | some r, some rt => some (r, rt)
          | _, _ => none)).unzip.2) := by
  induction rows generalizing a1 a2 with
  | nil => simp
  | cons row rest ih =>
      cases h1 : checkInt (row rc) with
      | none => simp [h1, ih]
      | some r =>
          cases h2 : checkInt (row tc) with
          | none => simp [h1, h2, ih]
          | some rt => simp [h1, h2, ih]

/-- C7 amended: the cited loaders do exclude malformed labels.
get_kappa.py's `load_rel_columns` returns exactly the unzipped rows on
which both cells parse as Python ints, so a row whose cell is missing
(`None`), blank, or non-numeric in either column contributes to neither
list and is never coerced; ap_tau_calc.py's `read_labels` + `dropna`
pipeline keeps exactly the rows whose relevance cell `to_numeric`-parses,
with the parsed value, and a docid whose cell fails in either file never
reaches the overlap on which the statistics are computed.
agreement_haiku.py is the exception (see the counterexample): it counts
missing-label rows in its agreement mean.  The closed conjuncts evaluate
`checkInt` and `toNumericCell` on missing, blank, whitespace, non-numeric
and numeric cells. -/
theorem malformed_labels_excluded :
    (∀ (fieldnames : List String) (rows : List (String → Option String)) (rc tc : String),
        relColOf fieldnames = some rc → trColOf fieldnames = some tc →
        load_rel_columns fieldnames rows =
          (rows.filterMap (fun row =>
            match checkInt (row rc), checkInt (row tc) with
            | some r, some rt => some (r, rt)
            | _, _ => none)).unzip) ∧
      (checkInt none = none ∧ checkInt (some "") = none ∧
        checkInt (some "  ") = none ∧ checkInt (some "n/a") = none ∧
        checkInt (some " 2 ") = some 2 ∧ checkInt (some "-3") = some (-3)) ∧
      (∀ (rows : List (ℕ × Option String)) (d : ℕ) (v : ℚ),
        (d, v) ∈ ApTauCalc.read_labels_dropna rows ↔
          ∃ c, (d, c) ∈ rows ∧ ApTauCalc.toNumericCell c = some v) ∧
      (∀ (rows1 rows2 : List (ℕ × Option String)) (d : ℕ),
        d ∈ ApTauCalc.overlapKeys (ApTauCalc.keysOf (ApTauCalc.read_labels_dropna rows1))
            (ApTauCalc.keysOf (ApTauCalc.read_labels_dropna rows2)) ↔
          (∃ c, (d, c) ∈ rows1 ∧ (ApTauCalc.toNumericCell c).isSome) ∧
            (∃ c, (d, c) ∈ rows2 ∧ (ApTauCalc.toNumericCell c).isSome)) ∧
      (ApTauCalc.toNumericCell none = none ∧ ApTauCalc.toNumericCell (some "") = none ∧
        ApTauCalc.toNumericCell (some "  ") = none ∧
        ApTauCalc.toNumericCell (some "n/a") = none ∧
        ApTauCalc.toNumericCell (some "2") = some 2 ∧
        ApTauCalc.toNumericCell (some "2.5") = some (5 / 2) ∧
        ApTauCalc.toNumericCell (some "-1") = some (-1)) := by
  refine ⟨?_, ⟨rfl, rfl, rfl, rfl, rfl, rfl⟩, ?_, ?_, ?_⟩
  · intro fieldnames rows rc tc hrc htc
    cases fieldnames with
    | nil => exact absurd hrc (by simp [relColOf, lookupCol])
    | cons a t =>
        simp only [load_rel_columns, hrc, htc]
        rw [load_fold_eq_filterMap]
        simp [List.unzip_eq_map]
  · exact ApTauCalc.mem_read_labels_dropna
  · intro rows1 rows2 d
    simp only [ApTauCalc.overlapKeys, Finset.mem_inter, ApTauCalc.mem_keysOf,
      ApTauCalc.mem_read_labels_dropna, Option.isSome_iff_exists]
    tauto
  · refine ⟨rfl, rfl, rfl, rfl, ?_, ?_, ?_⟩
    · rw [show ApTauCalc.toNumericCell (some "2") =
        some (1 * ((GetKappa.digitsVal ['2'] : ℕ) : ℚ)) from rfl,
        show GetKappa.digitsVal ['2'] = 2 from rfl]
      norm_num
    · rw [show ApTauCalc.toNumericCell (some "2.5") =
        some (1 * (((GetKappa.digitsVal ['2'] : ℕ) : ℚ) +
          ((GetKappa.digitsVal ['5'] : ℕ) : ℚ) / (10 ^ (1 : ℕ) : ℚ))) from rfl,
        show GetKappa.digitsVal ['2'] = 2 from rfl,
        show GetKappa.digitsVal ['5'] = 5 from rfl]
      norm_num
    · rw [show ApTauCalc.toNumericCell (some "-1") =
        some ((-1) * ((GetKappa.digitsVal ['1'] : ℕ) : ℚ)) from rfl,
        show GetKappa.digitsVal ['1'] = 1 from rfl]
      norm_num

theorem malformed_labels_excluded_witness :
    load_rel_columns ["rel", "rel_translated"]
        [fun c => if c = "rel" then some "1" else some "x",
         fun c => if c = "rel" then some "2" else some "3"] =
      ([fun c => if c = "rel" then some "1" else some "x",
        fun c => if c = "rel" then some "2" else some "3"].filterMap
          (fun row =>
            match checkInt (row "rel"), checkInt (row "rel_translated") with
            | some r, some rt => some (r, rt)
            | _, _ => none)).unzip :=
  malformed_labels_excluded.1 ["rel", "rel_translated"]
    [fun c => if c = "rel" then some "1" else some "x",
     fun c => if c = "rel" then some "2" else some "3"] "rel" "rel_translated" rfl rfl

end GetKappa

namespace Umbrela

lemma digitWithBoundary_mem (l : List Char) (c : Char)
    (h : digitWithBoundary l = some c) : c = '0' ∨ c = '1' ∨ c = '2' ∨ c = '3' := by
  cases l with
  | nil => exact Option.noConfusion h
  | cons x rest =>
      simp only [digitWithBoundary] at h
      split at h
      · rename_i hc
        cases h
        have hx := (Bool.and_eq_true _ _).mp hc |>.1
        simpa [isDigit03, or_assoc] using hx
      · exact Option.noConfusion h

lemma finalScoreAt_mem (l : List Char) (c : Char) (h : finalScoreAt l = some c) :
    c = '0' ∨ c = '1' ∨ c = '2' ∨ c = '3' := by
  unfold finalScoreAt at h
  split at h
  · exact Option.noConfusion h
  · split at h
    · exact Option.noConfusion h
    · split at h
      · exact Option.noConfusion h
      · split at h
        · exact Option.noConfusion h
        · exact digitWithBoundary_mem _ _ h

lemma oFieldAt_mem (l : List Char) (c : Char) (h : oFieldAt l = some c) :
    c = '0' ∨ c = '1' ∨ c = '2' ∨ c = '3' := by
  unfold oFieldAt at h
  split at h
  · exact Option.noConfusion h
  · split at h
    · exact Option.noConfusion h
    · exact digitWithBoundary_mem _ _ h

lemma searchFirst_exists (f : List Char → Option Char) (l : List Char) (c : Char)
    (h : searchFirst f l = some c) : ∃ l0, f l0 = some c := by
  induction l with
  | nil => exact ⟨[], h⟩
  | cons x cs ih =>
      simp only [searchFirst] at h
      split at h
      · rename_i r hr
        exact ⟨x :: cs, by rw [hr]; exact h⟩
      · exact ih h

lemma tryJsonO_mem (jloads : String → Option PyJson) (pyStr : PyJson → String)
    (t s : String) (h : tryJsonO jloads pyStr t = some s) :
    s = "0" ∨ s = "1" ∨ s = "2" ∨ s = "3" := by
  unfold tryJsonO at h
  split at h
  · split at h
    · split at h
      · rename_i hcond
        cases h
        exact hcond
      · exact Option.noConfusion h
    · exact Option.noConfusion h
  · exact Option.noConfusion h

/-- C10: for every input text — and every possible behaviour of the
standard-library collaborators `json.loads` and `str` —
`extract_o_score_from_text` returns one of `""`, `"0"`, `"1"`, `"2"`,
`"3"`: every branch either guards its candidate with membership in that
set or returns a regex capture from the class `[0-3]`, and every fallible
call is wrapped, so no grade outside the 0-3 scale can be returned. -/
theorem extract_o_score_in_range (jloads : String → Option PyJson)
    (pyStr : PyJson → String) (text : String) :
    extract_o_score_from_text jloads pyStr text ∈ ["", "0", "1", "2", "3"] := by
  unfold extract_o_score_from_text
  split
  · simp
  · split
    · rename_i s hs
      rcases tryJsonO_mem _ _ _ _ hs with h | h | h | h <;> simp [h]
    · split
      · rename_i s hs
        rcases Option.bind_eq_some.mp hs with ⟨sub, _, hs2⟩
        rcases tryJsonO_mem _ _ _ _ hs2 with h | h | h | h <;> simp [h]
      · split
        · rename_i c hc
          rcases searchFirst_exists _ _ _ hc with ⟨l0, hl0⟩
          rcases finalScoreAt_mem _ _ hl0 with h | h | h | h <;> subst h <;> decide
        · split
          · rename_i c hc
            rcases searchFirst_exists _ _ _ hc with ⟨l0, hl0⟩
            rcases oFieldAt_mem _ _ hl0 with h | h | h | h <;> subst h <;> decide
          · simp

end Umbrela

